import Mathlib

set_option linter.unusedVariables false

/-!
Verification of the client-side-encrypted pastebin (pastebin2).

This file gives a shallow embedding of the cryptographic envelope codec and
the paste-store client of the repository:

  * src/src/utils/crypto.ts : hex codec, UTF-8 text codec, AES-GCM envelope
    construction (encrypt / encryptWithPassword) and parsing
    (decrypt / decryptWithPassword);
  * src/src/services/api.ts : TTL computation, paste creation and retrieval
    with lazy expiry.

JavaScript strings are modelled as `List Char` (sequences of Unicode scalar
values), byte arrays (`Uint8Array` / `ArrayBuffer`) as `List Nat` whose
elements are below 256 (stated as hypotheses where it matters), and
timestamps as `Int` (milliseconds since the epoch, fixed-offset time zone).

The platform primitives reached through `window.crypto.subtle` (AES-GCM
encryption/decryption and PBKDF2 key derivation) are not part of the
repository; they are modelled as an abstract `CryptoProvider` record, and
the AEAD contract (round-trip, tag failure on wrong key, byte-valued
output) is assumed pointwise as hypotheses of the theorems that need it.
A small concrete provider `toyProvider` satisfying the contract on the
inputs used is defined for witnesses.  `TextEncoder` / `TextDecoder` are
modelled concretely as the UTF-8 codec they implement.
-/

/-! ## JavaScript primitives used by crypto.ts -/

/-- Line terminators, which the regular-expression dot (used in
`hex.match(/.{1,2}/g)` inside hexToArrayBuffer) does not match. -/
def isLineTerm (c : Char) : Bool :=
  c = '\n' || c = '\r' || c = Char.ofNat 0x2028 || c = Char.ofNat 0x2029

/-- Chunking performed by `hex.match(/.{1,2}/g)`: greedy matches of one or
two consecutive non-line-terminator characters, scanning left to right
(a `null` result corresponds to the empty chunk list). -/
def jsChunks : List Char → List (List Char)
  | [] => []
  | a :: rest =>
    if isLineTerm a then jsChunks rest
    else
      match rest with
      | [] => [[a]]
      | b :: rest2 =>
        if isLineTerm b then [a] :: jsChunks rest2
        else [a, b] :: jsChunks rest2

/-- Value of a single hexadecimal digit (JavaScript `parseInt` with radix 16
accepts both lowercase and uppercase digits). -/
def hexVal (c : Char) : Option Nat :=
  if 48 ≤ c.toNat ∧ c.toNat ≤ 57 then some (c.toNat - 48)
  else if 97 ≤ c.toNat ∧ c.toNat ≤ 102 then some (c.toNat - 87)
  else if 65 ≤ c.toNat ∧ c.toNat ≤ 70 then some (c.toNat - 55)
  else none

/-- Longest hexadecimal-digit prefix folded left to right into a value;
`none` when no digit was read (JavaScript `NaN`). -/
def hexFold : List Char → Option Nat → Option Nat
  | [], acc => acc
  | c :: rest, acc =>
    match hexVal c with
    | none => acc
    | some d => hexFold rest (some ((acc.getD 0) * 16 + d))

/-- JavaScript `parseInt(s, 16)` on an unsigned chunk: strips an optional
0x / 0X radix marker, then reads the longest hexadecimal-digit prefix;
returns `none` for `NaN`.  (Leading whitespace handling is omitted: the
chunks fed to it here are 1–2 characters cut from an envelope string.) -/
def jsParseIntHexCore (l : List Char) : Option Nat :=
  match l with
  | '0' :: 'x' :: t => hexFold t none
  | '0' :: 'X' :: t => hexFold t none
  | t => hexFold t none

/-- JavaScript `parseInt(s, 16)` including the optional sign. -/
def jsParseIntHex : List Char → Option Int
  | '-' :: t => (jsParseIntHexCore t).map (fun n => -(n : Int))
  | '+' :: t => (jsParseIntHexCore t).map (fun n => (n : Int))
  | l => (jsParseIntHexCore l).map (fun n => (n : Int))

/-- Storing a JavaScript number into a `Uint8Array`: `NaN` becomes 0, other
values are taken modulo 256 (ToUint8 conversion). -/
def jsToUint8 : Option Int → Nat
  | none => 0
  | some i => (i % 256).toNat

/-- Conversion of one 1–2 character chunk to a byte:
`parseInt(byte, 16)` followed by the `Uint8Array` element conversion. -/
def hexByte (chunk : List Char) : Nat :=
  jsToUint8 (jsParseIntHex chunk)

/-- Model of `hexToArrayBuffer` (crypto.ts lines 24–28): split the string
into 1–2 character chunks with `hex.match(/.{1,2}/g)` (empty list when the
match is `null`) and convert each chunk with `parseInt(byte, 16)`. -/
def hexToArrayBuffer (hex : List Char) : List Nat :=
  (jsChunks hex).map hexByte

/-- Lowercase hexadecimal digit for a value below 16, as produced by
`Number.prototype.toString(16)`. -/
def hexChar (n : Nat) : Char :=
  if n < 10 then Char.ofNat (48 + n) else Char.ofNat (87 + n)

/-- Digits of `b.toString(16)` (lowercase, no padding, most significant
digit first). -/
def natToHexChars (n : Nat) : List Char :=
  if h : n < 16 then [hexChar n]
  else
    have : n / 16 < n := Nat.div_lt_self (by omega) (by omega)
    natToHexChars (n / 16) ++ [hexChar (n % 16)]

/-- JavaScript `padStart(2, '0')`. -/
def padStart2 (l : List Char) : List Char :=
  if l.length ≥ 2 then l else List.replicate (2 - l.length) '0' ++ l

/-- Model of `arrayBufferToHex` (crypto.ts lines 17–21): each byte rendered
with `toString(16).padStart(2, '0')`, concatenated. -/
def arrayBufferToHex (buffer : List Nat) : List Char :=
  buffer.flatMap (fun b => padStart2 (natToHexChars b))

/-! ## Text codec (TextEncoder / TextDecoder, i.e. UTF-8) -/

/-- UTF-8 encoding of a single Unicode scalar value, as performed by
`TextEncoder.encode` for each character of the string. -/
def utf8EncodeChar (c : Char) : List Nat :=
  let n := c.toNat
  if n < 0x80 then [n]
  else if n < 0x800 then [0xC0 + n / 64, 0x80 + n % 64]
  else if n < 0x10000 then
    [0xE0 + n / 4096, 0x80 + (n / 64) % 64, 0x80 + n % 64]
  else
    [0xF0 + n / 262144, 0x80 + (n / 4096) % 64, 0x80 + (n / 64) % 64,
     0x80 + n % 64]

/-- Model of `strToUint8Array` (crypto.ts lines 7–9): `TextEncoder.encode`,
i.e. UTF-8 encoding of the string. -/
def strToUint8Array (str : List Char) : List Nat :=
  str.flatMap utf8EncodeChar

/-- Replacement character emitted by `TextDecoder` on malformed input. -/
def replChar : Char := Char.ofNat 0xFFFD

/-- Whether a byte is a UTF-8 continuation byte in the window permitted
after the given lead byte (WHATWG UTF-8 decode boundaries, which exclude
overlong forms and surrogates). -/
def utf8ContOk (lead b : Nat) : Bool :=
  if lead = 0xE0 then 0xA0 ≤ b ∧ b ≤ 0xBF
  else if lead = 0xED then 0x80 ≤ b ∧ b ≤ 0x9F
  else if lead = 0xF0 then 0x90 ≤ b ∧ b ≤ 0xBF
  else if lead = 0xF4 then 0x80 ≤ b ∧ b ≤ 0x8F
  else 0x80 ≤ b ∧ b ≤ 0xBF

/-- One step of UTF-8 decoding: decode a single scalar value (or emit
U+FFFD on a malformed prefix) and return the undecoded remainder. -/
def utf8DecodeOne : List Nat → Char × List Nat
  | [] => (replChar, [])
  | b :: rest =>
    if b < 0x80 then (Char.ofNat b, rest)
    else if b < 0xC2 then (replChar, rest)
    else if b < 0xE0 then
      match rest with
      | [] => (replChar, [])
      | b2 :: rest2 =>
        if utf8ContOk b b2 then
          (Char.ofNat ((b - 0xC0) * 64 + (b2 - 0x80)), rest2)
        else (replChar, b2 :: rest2)
    else if b < 0xF0 then
      match rest with
      | b2 :: b3 :: rest3 =>
        if utf8ContOk b b2 ∧ 0x80 ≤ b3 ∧ b3 ≤ 0xBF then
          (Char.ofNat ((b - 0xE0) * 4096 + (b2 - 0x80) * 64 + (b3 - 0x80)),
           rest3)
        else (replChar, b2 :: b3 :: rest3)
      | short => (replChar, short.drop 2)
    else if b < 0xF5 then
      match rest with
      | b2 :: b3 :: b4 :: rest4 =>
        if utf8ContOk b b2 ∧ 0x80 ≤ b3 ∧ b3 ≤ 0xBF ∧ 0x80 ≤ b4 ∧ b4 ≤ 0xBF then
          (Char.ofNat ((b - 0xF0) * 262144 + (b2 - 0x80) * 4096 +
              (b3 - 0x80) * 64 + (b4 - 0x80)), rest4)
        else (replChar, b2 :: b3 :: b4 :: rest4)
      | short => (replChar, short.drop 3)
    else (replChar, rest)

theorem utf8DecodeOne_lt (b : Nat) (rest : List Nat) :
    ((utf8DecodeOne (b :: rest)).2).length < (b :: rest).length := by
  match rest with
  | [] =>
    simp only [utf8DecodeOne]
    split_ifs <;> simp
  | [b2] =>
    simp only [utf8DecodeOne]
    split_ifs <;> simp
  | [b2, b3] =>
    simp only [utf8DecodeOne]
    split_ifs <;> simp
  | b2 :: b3 :: b4 :: r4 =>
    simp only [utf8DecodeOne]
    split_ifs <;> simp +arith

/-- Model of `uint8ArrayToStr` (crypto.ts lines 12–14): `TextDecoder.decode`
with the default replacement error mode, i.e. UTF-8 decoding.  Valid
sequences decode exactly; malformed prefixes yield U+FFFD (the precise
resynchronisation point after an error is simplified, which no claim
exercises: every decode performed by the claims is of a valid encoding). -/
def uint8ArrayToStr : List Nat → List Char
  | [] => []
  | b :: rest =>
    (utf8DecodeOne (b :: rest)).1 :: uint8ArrayToStr (utf8DecodeOne (b :: rest)).2
  termination_by l => l.length
  decreasing_by
    apply utf8DecodeOne_lt

/-! ## Envelope operations (crypto.ts)

The AES-GCM and PBKDF2 primitives live behind `window.crypto.subtle` and
are not code of this repository; they are abstracted as a provider record.
`enc key iv plaintext` returns ciphertext with the AEAD tag appended;
`dec key iv ciphertext` returns `none` whenever the platform call would
throw (tag-verification failure, unusable IV, truncated input);
`kdf passwordBytes salt` is the PBKDF2-HMAC-SHA-256 derivation, a pure
function of its two arguments (the code fixes iterations and hash). -/

structure CryptoProvider where
  enc : List Nat → List Nat → List Nat → List Nat
  dec : List Nat → List Nat → List Nat → Option (List Nat)
  kdf : List Nat → List Nat → List Nat

/-- PBKDF2 iteration count fixed in deriveKeyFromPassword (crypto.ts line 61). -/
def pbkdf2Iterations : Nat := 100000

/-- PBKDF2 hash fixed in deriveKeyFromPassword (crypto.ts line 62). -/
def pbkdf2Hash : List Char := "SHA-256".data

/-- Model of `importKey` (crypto.ts lines 75–87): the raw key bytes are the
hex decoding of the key string. -/
def importKey (hexKey : List Char) : List Nat :=
  hexToArrayBuffer hexKey

/-- Model of `encrypt` (crypto.ts lines 90–108).  The fresh random 12-byte
IV drawn by `window.crypto.getRandomValues(new Uint8Array(12))` is passed
in as the `iv` argument (the random draw made by that call). -/
def encrypt (C : CryptoProvider) (iv : List Nat) (text hexKey : List Char) :
    List Char :=
  let key := importKey hexKey
  let encrypted := C.enc key iv (strToUint8Array text)
  arrayBufferToHex iv ++ arrayBufferToHex encrypted

/-- Model of `encryptWithPassword` (crypto.ts lines 111–139).  The fresh
random 16-byte salt and 12-byte IV drawn by `getRandomValues` are passed in
as arguments. -/
def encryptWithPassword (C : CryptoProvider) (salt iv : List Nat)
    (text password : List Char) : List Char :=
  let key := C.kdf (strToUint8Array password) salt
  let encrypted := C.enc key iv (strToUint8Array text)
  arrayBufferToHex salt ++ (arrayBufferToHex iv ++ arrayBufferToHex encrypted)

/-- Error message thrown by `decrypt` on any failure of the platform
decryption call (crypto.ts line 164). -/
def decryptFailMsg : List Char :=
  "Failed to decrypt: Invalid key or corrupted data".data

/-- Error message thrown by `decryptWithPassword` on any failure
(crypto.ts line 204). -/
def decryptPwFailMsg : List Char :=
  "Failed to decrypt: Invalid password or corrupted data".data

/-- The decode step of `decrypt` (crypto.ts lines 143–148), inline in the
source: IV hex is `ciphertext.substring(0, 24)`, ciphertext hex is
`ciphertext.substring(24)`, each hex-decoded.  It is a total function: the
source performs no length or character validation here. -/
def decodeKeyed (ciphertext : List Char) : List Nat × List Nat :=
  (hexToArrayBuffer (ciphertext.take 24), hexToArrayBuffer (ciphertext.drop 24))

/-- Model of `decrypt` (crypto.ts lines 142–166): split the envelope at hex
offset 24, decode, run the platform decryption; any platform failure is
caught and rethrown as the single generic error message. -/
def decrypt (C : CryptoProvider) (ciphertext hexKey : List Char) :
    Except (List Char) (List Char) :=
  let iv := (decodeKeyed ciphertext).1
  let encrypted := (decodeKeyed ciphertext).2
  let key := importKey hexKey
  match C.dec key iv encrypted with
  | some decrypted => Except.ok (uint8ArrayToStr decrypted)
  | none => Except.error decryptFailMsg

/-- The decode step of `decryptWithPassword` (crypto.ts lines 171–182):
salt hex is `substring(0, 32)`, IV hex is `substring(32, 56)`, ciphertext
hex is `substring(56)`, each hex-decoded; total, with no validation. -/
def decodePassworded (ciphertext : List Char) :
    List Nat × List Nat × List Nat :=
  (hexToArrayBuffer (ciphertext.take 32),
   hexToArrayBuffer ((ciphertext.drop 32).take 24),
   hexToArrayBuffer (ciphertext.drop 56))

/-- Model of `decryptWithPassword` (crypto.ts lines 169–206): split at hex
offsets 32 and 56, derive the key from the password and the extracted salt,
decrypt; any failure becomes the single generic password error message. -/
def decryptWithPassword (C : CryptoProvider) (ciphertext password : List Char) :
    Except (List Char) (List Char) :=
  let salt := (decodePassworded ciphertext).1
  let iv := (decodePassworded ciphertext).2.1
  let encrypted := (decodePassworded ciphertext).2.2
  match C.dec (C.kdf (strToUint8Array password) salt) iv encrypted with
  | some decrypted => Except.ok (uint8ArrayToStr decrypted)
  | none => Except.error decryptPwFailMsg

/-- Specification-side decode, for comparison with the code (refinement):
the spec's `decodeKeyed(envelopeString) -> (iv, ciphertext)` splits at byte
offset 12 and "fails with MalformedEnvelopeError if the string is shorter
than 24 hex characters or contains non-hex characters".  The code has no
such error; this definition follows the spec's words. -/
def decodeKeyedSpec (s : List Char) :
    Except (List Char) (List Nat × List Nat) :=
  if s.length < 24 ∨ ¬ (s.all fun c => (hexVal c).isSome) then
    Except.error "MalformedEnvelopeError".data
  else
    Except.ok (hexToArrayBuffer (s.take 24), hexToArrayBuffer (s.drop 24))

/-! ## Paste store client (api.ts)

Dates are modelled as milliseconds since the epoch (`Int`) in a
fixed-offset time zone, so that `setHours(getHours() + v)`,
`setDate(getDate() + v)` and `setMinutes(getMinutes() + v)` add exactly
`v` hours, days and minutes.  `toISOString` on an invalid date (the result
of arithmetic with `NaN`) throws; this is modelled by `Option`. -/

/-- Value of a decimal digit. -/
def decVal (c : Char) : Option Nat :=
  if 48 ≤ c.toNat ∧ c.toNat ≤ 57 then some (c.toNat - 48) else none

/-- Longest decimal-digit prefix folded into a value; `none` for `NaN`. -/
def decFold : List Char → Option Nat → Option Nat
  | [], acc => acc
  | c :: rest, acc =>
    match decVal c with
    | none => acc
    | some d => decFold rest (some ((acc.getD 0) * 10 + d))

/-- JavaScript `parseInt(s)` with no radix argument on an unsigned string:
an 0x / 0X prefix switches to hexadecimal, otherwise the longest decimal
prefix is read. -/
def jsParseIntDecCore (l : List Char) : Option Nat :=
  match l with
  | '0' :: 'x' :: t => hexFold t none
  | '0' :: 'X' :: t => hexFold t none
  | t => decFold t none

/-- JavaScript `parseInt(s)` including the optional sign (leading
whitespace omitted, as for the hexadecimal case). -/
def jsParseIntDec : List Char → Option Int
  | '-' :: t => (jsParseIntDecCore t).map (fun n => -(n : Int))
  | '+' :: t => (jsParseIntDecCore t).map (fun n => (n : Int))
  | l => (jsParseIntDecCore l).map (fun n => (n : Int))

/-- Milliseconds in one hour, one day and one minute. -/
def msPerHour : Int := 3600000

/-- Milliseconds in one day. -/
def msPerDay : Int := 86400000

/-- Milliseconds in one minute. -/
def msPerMinute : Int := 60000

/-- Model of `ttlToExpiresAt` (api.ts lines 9–26): `value = parseInt(ttl)`;
a ttl ending in 'h' adds `value` hours, in 'd' adds `value` days, in 'm'
adds `value` minutes; anything else defaults to now + 24 hours (the parsed
value is unused in the default branch).  `none` models the `RangeError`
which `toISOString` throws when `value` was `NaN`. -/
def ttlToExpiresAt (now : Int) (ttl : List Char) : Option Int :=
  let value := jsParseIntDec ttl
  if ttl.getLast? = some 'h' then value.map (fun v => now + v * msPerHour)
  else if ttl.getLast? = some 'd' then value.map (fun v => now + v * msPerDay)
  else if ttl.getLast? = some 'm' then value.map (fun v => now + v * msPerMinute)
  else some (now + 24 * msPerHour)

/-- Stored / returned paste record (types.ts `PasteData`).  `hasPassword`
is `Option Bool`: `none` models a stored JSON record that lacks the field
(the backward-compatibility case handled in fetchPaste). -/
structure PasteData where
  ciphertext : List Char
  expiresAt : Int
  hasPassword : Option Bool
deriving DecidableEq

/-- Model of `createPaste` (api.ts lines 34–62): the record it writes to
storage under the fresh id.  The random id draw is the `id` argument and
the current time is `now`; `none` models the throw out of
`ttlToExpiresAt` on an unparsable ttl with unit suffix. -/
def createPaste (ciphertext ttl : List Char) (hasPassword : Bool)
    (now : Int) : Option PasteData :=
  (ttlToExpiresAt now ttl).map
    (fun e => { ciphertext := ciphertext, expiresAt := e,
                hasPassword := some hasPassword })

/-- Model of `fetchPaste` (api.ts lines 65–92).  `stored` is the record
found in localStorage under the requested id (`none` when absent), `now`
is the current time.  Missing `hasPassword` is defaulted to `false`; an
expired record is deleted and `null` is returned (the deletion itself only
removes the record, so the caller-visible result is the returned value). -/
def fetchPaste (stored : Option PasteData) (now : Int) : Option PasteData :=
  match stored with
  | none => none
  | some paste =>
    let paste' :=
      if paste.hasPassword = none then { paste with hasPassword := some false }
      else paste
    if paste'.expiresAt < now then none
    else some paste'

/-! ## Concrete provider for witnesses

A small authenticated cipher satisfying the AEAD contract on concrete
inputs: bytes are masked with a key/IV-dependent constant and a 16-byte
tag over the plaintext is appended; decryption rejects an empty IV, a
ciphertext shorter than the tag, and any tag mismatch. -/

/-- Key/IV-dependent mask byte. -/
def toyMask (key iv : List Nat) : Nat := (key.sum + iv.sum) % 256

/-- Sixteen-byte tag over key, IV and message. -/
def toyTag (key iv m : List Nat) : List Nat :=
  List.replicate 16 ((key.sum * 31 + iv.sum * 7 + m.sum * 3 + m.length) % 256)

/-- Toy AEAD encryption: masked message followed by the tag. -/
def toyEnc (key iv m : List Nat) : List Nat :=
  m.map (fun b => (b + toyMask key iv) % 256) ++ toyTag key iv m

/-- Toy AEAD decryption: reject short input or bad tag, unmask otherwise. -/
def toyDec (key iv c : List Nat) : Option (List Nat) :=
  if iv = [] then none
  else if c.length < 16 then none
  else
    let ct := c.take (c.length - 16)
    let m := ct.map (fun b => (b + 256 - toyMask key iv) % 256)
    if c.drop (c.length - 16) = toyTag key iv m then some m else none

/-- Toy key derivation: a pure function of password bytes and salt. -/
def toyKdf (pw salt : List Nat) : List Nat :=
  [(pw.sum * 131 + salt.sum * 17 + pw.length) % 256]

/-- The concrete provider used to instantiate witnesses. -/
def toyProvider : CryptoProvider :=
  { enc := toyEnc, dec := toyDec, kdf := toyKdf }

/-! ## Hex codec lemmas -/

theorem natToHexChars_lt {n : Nat} (h : n < 16) : natToHexChars n = [hexChar n] := by
  rw [natToHexChars]
  simp [h]

theorem natToHexChars_ge {n : Nat} (h : ¬ n < 16) :
    natToHexChars n = natToHexChars (n / 16) ++ [hexChar (n % 16)] := by
  rw [natToHexChars]
  simp [h]

/-- One byte below 256 renders as exactly its two hex digits. -/
theorem byte_hex {b : Nat} (hb : b < 256) :
    padStart2 (natToHexChars b) = [hexChar (b / 16), hexChar (b % 16)] := by
  by_cases h : b < 16
  · have h0 : b / 16 = 0 := Nat.div_eq_of_lt h
    have hm : b % 16 = b := Nat.mod_eq_of_lt h
    rw [natToHexChars_lt h]
    simp [padStart2, h0, hm, hexChar]
  · have h16 : b / 16 < 16 := by omega
    rw [natToHexChars_ge h, natToHexChars_lt h16]
    simp [padStart2]

theorem hexChar_not_lineTerm : ∀ n < 16, isLineTerm (hexChar n) = false := by
  decide

theorem hexByte_pair :
    ∀ hi < 16, ∀ lo < 16, hexByte [hexChar hi, hexChar lo] = hi * 16 + lo := by
  decide

theorem jsChunks_cons2 {a b : Char} (ha : isLineTerm a = false)
    (hb : isLineTerm b = false) (rest : List Char) :
    jsChunks (a :: b :: rest) = [a, b] :: jsChunks rest := by
  simp [jsChunks, ha, hb]

/-- Hex round-trip on byte lists (claim C8 core): decoding the encoding of
any byte sequence returns it unchanged. -/
theorem hex_roundtrip (l : List Nat) (h : ∀ b ∈ l, b < 256) :
    hexToArrayBuffer (arrayBufferToHex l) = l := by
  induction l with
  | nil => rfl
  | cons b t ih =>
    have hb : b < 256 := h b (List.mem_cons_self b t)
    have ht : ∀ x ∈ t, x < 256 := fun x hx => h x (List.mem_cons_of_mem b hx)
    have hhi : b / 16 < 16 := by omega
    have hlo : b % 16 < 16 := by omega
    have step : arrayBufferToHex (b :: t) =
        hexChar (b / 16) :: hexChar (b % 16) :: arrayBufferToHex t := by
      simp only [arrayBufferToHex, List.flatMap_cons, byte_hex hb]
      rfl
    rw [step]
    unfold hexToArrayBuffer
    rw [jsChunks_cons2 (hexChar_not_lineTerm _ hhi) (hexChar_not_lineTerm _ hlo)]
    simp only [List.map_cons]
    rw [hexByte_pair _ hhi _ hlo]
    have : hexToArrayBuffer (arrayBufferToHex t) = t := ih ht
    unfold hexToArrayBuffer at this
    rw [this]
    congr 1
    omega

/-- Length of the hex rendering of a byte list. -/
theorem arrayBufferToHex_length (l : List Nat) (h : ∀ b ∈ l, b < 256) :
    (arrayBufferToHex l).length = 2 * l.length := by
  induction l with
  | nil => rfl
  | cons b t ih =>
    have hb : b < 256 := h b (List.mem_cons_self b t)
    have ht : ∀ x ∈ t, x < 256 := fun x hx => h x (List.mem_cons_of_mem b hx)
    simp only [arrayBufferToHex, List.flatMap_cons, byte_hex hb] at *
    simp [ih ht, List.length_cons]
    ring

/-- Hex rendering is injective on byte lists. -/
theorem arrayBufferToHex_inj {l1 l2 : List Nat} (h1 : ∀ b ∈ l1, b < 256)
    (h2 : ∀ b ∈ l2, b < 256) (he : arrayBufferToHex l1 = arrayBufferToHex l2) :
    l1 = l2 := by
  have := hex_roundtrip l1 h1
  rw [he, hex_roundtrip l2 h2] at this
  exact this.symm

/-! ## Text codec lemmas -/

set_option maxRecDepth 4000

theorem uint8ArrayToStr_cons (b : Nat) (rest : List Nat) :
    uint8ArrayToStr (b :: rest) =
      (utf8DecodeOne (b :: rest)).1 ::
        uint8ArrayToStr (utf8DecodeOne (b :: rest)).2 := by
  rw [uint8ArrayToStr]

theorem uint8ArrayToStr_one {b : Nat} (h : b < 0x80) (tail : List Nat) :
    uint8ArrayToStr (b :: tail) = Char.ofNat b :: uint8ArrayToStr tail := by
  rw [uint8ArrayToStr_cons]
  simp [utf8DecodeOne, h]

theorem uint8ArrayToStr_two {b b2 : Nat} (h1 : 0xC2 ≤ b) (h2 : b < 0xE0)
    (h3 : 0x80 ≤ b2) (h4 : b2 ≤ 0xBF) (tail : List Nat) :
    uint8ArrayToStr (b :: b2 :: tail) =
      Char.ofNat ((b - 0xC0) * 64 + (b2 - 0x80)) :: uint8ArrayToStr tail := by
  have hc : utf8ContOk b b2 = true := by
    unfold utf8ContOk
    split_ifs <;> simp <;> omega
  rw [uint8ArrayToStr_cons]
  simp [utf8DecodeOne, show ¬ b < 0x80 by omega, show ¬ b < 0xC2 by omega,
    h2, hc]

theorem uint8ArrayToStr_three {b b2 b3 : Nat} (h1 : 0xE0 ≤ b) (h2 : b < 0xF0)
    (hc : utf8ContOk b b2 = true) (h3 : 0x80 ≤ b3) (h4 : b3 ≤ 0xBF)
    (tail : List Nat) :
    uint8ArrayToStr (b :: b2 :: b3 :: tail) =
      Char.ofNat ((b - 0xE0) * 4096 + (b2 - 0x80) * 64 + (b3 - 0x80)) ::
        uint8ArrayToStr tail := by
  rw [uint8ArrayToStr_cons]
  simp [utf8DecodeOne, show ¬ b < 0x80 by omega, show ¬ b < 0xC2 by omega,
    show ¬ b < 0xE0 by omega, h2, hc, h3, h4]

theorem uint8ArrayToStr_four {b b2 b3 b4 : Nat} (h1 : 0xF0 ≤ b) (h2 : b < 0xF5)
    (hc : utf8ContOk b b2 = true) (h3 : 0x80 ≤ b3) (h4 : b3 ≤ 0xBF)
    (h5 : 0x80 ≤ b4) (h6 : b4 ≤ 0xBF) (tail : List Nat) :
    uint8ArrayToStr (b :: b2 :: b3 :: b4 :: tail) =
      Char.ofNat ((b - 0xF0) * 262144 + (b2 - 0x80) * 4096 +
          (b3 - 0x80) * 64 + (b4 - 0x80)) :: uint8ArrayToStr tail := by
  rw [uint8ArrayToStr_cons]
  simp [utf8DecodeOne, show ¬ b < 0x80 by omega, show ¬ b < 0xC2 by omega,
    show ¬ b < 0xE0 by omega, show ¬ b < 0xF0 by omega, h2, hc, h3, h4, h5, h6]

/-- Unicode scalar value bounds carried by every `Char`. -/
theorem char_toNat_valid (c : Char) :
    c.toNat < 0xD800 ∨ (0xDFFF < c.toNat ∧ c.toNat < 0x110000) := c.valid

/-- Decoding the UTF-8 encoding of one character prepended to a byte stream
recovers the character. -/
theorem utf8_decode_encode_cons (c : Char) (tail : List Nat) :
    uint8ArrayToStr (utf8EncodeChar c ++ tail) = c :: uint8ArrayToStr tail := by
  have hval := char_toNat_valid c
  by_cases h1 : c.toNat < 0x80
  · rw [show utf8EncodeChar c = [c.toNat] by simp [utf8EncodeChar, h1]]
    rw [List.cons_append, List.nil_append, uint8ArrayToStr_one h1]
    simp
  · by_cases h2 : c.toNat < 0x800
    · rw [show utf8EncodeChar c =
          [0xC0 + c.toNat / 64, 0x80 + c.toNat % 64] by
        simp [utf8EncodeChar, h1, h2]]
      rw [List.cons_append, List.cons_append, List.nil_append,
        uint8ArrayToStr_two (by omega) (by omega) (by omega) (by omega)]
      congr 1
      have : (0xC0 + c.toNat / 64 - 0xC0) * 64 + (0x80 + c.toNat % 64 - 0x80) =
          c.toNat := by omega
      rw [this]
      simp
    · by_cases h3 : c.toNat < 0x10000
      · rw [show utf8EncodeChar c =
            [0xE0 + c.toNat / 4096, 0x80 + (c.toNat / 64) % 64,
             0x80 + c.toNat % 64] by simp [utf8EncodeChar, h1, h2, h3]]
        have hc : utf8ContOk (0xE0 + c.toNat / 4096)
            (0x80 + (c.toNat / 64) % 64) = true := by
          unfold utf8ContOk
          split_ifs <;> simp <;> omega
        rw [List.cons_append, List.cons_append, List.cons_append,
          List.nil_append,
          uint8ArrayToStr_three (by omega) (by omega) hc (by omega) (by omega)]
        congr 1
        have : (0xE0 + c.toNat / 4096 - 0xE0) * 4096 +
            (0x80 + (c.toNat / 64) % 64 - 0x80) * 64 +
            (0x80 + c.toNat % 64 - 0x80) = c.toNat := by omega
        rw [this]
        simp
      · rw [show utf8EncodeChar c =
            [0xF0 + c.toNat / 262144, 0x80 + (c.toNat / 4096) % 64,
             0x80 + (c.toNat / 64) % 64, 0x80 + c.toNat % 64] by
          simp [utf8EncodeChar, h1, h2, h3]]
        have hc : utf8ContOk (0xF0 + c.toNat / 262144)
            (0x80 + (c.toNat / 4096) % 64) = true := by
          unfold utf8ContOk
          split_ifs <;> simp <;> omega
        rw [List.cons_append, List.cons_append, List.cons_append,
          List.cons_append, List.nil_append,
          uint8ArrayToStr_four (by omega) (by omega) hc (by omega) (by omega)
            (by omega) (by omega)]
        congr 1
        have : (0xF0 + c.toNat / 262144 - 0xF0) * 262144 +
            (0x80 + (c.toNat / 4096) % 64 - 0x80) * 4096 +
            (0x80 + (c.toNat / 64) % 64 - 0x80) * 64 +
            (0x80 + c.toNat % 64 - 0x80) = c.toNat := by omega
        rw [this]
        simp

/-- Text codec round-trip: `TextDecoder.decode (TextEncoder.encode s) = s`. -/
theorem utf8_roundtrip (s : List Char) :
    uint8ArrayToStr (strToUint8Array s) = s := by
  induction s with
  | nil => rw [show strToUint8Array [] = [] from rfl, uint8ArrayToStr]
  | cons c t ih =>
    unfold strToUint8Array at *
    rw [List.flatMap_cons, utf8_decode_encode_cons, ih]

/-! ## Envelope split lemmas -/

theorem hexLen_iv {iv : List Nat} (hlen : iv.length = 12)
    (hb : ∀ b ∈ iv, b < 256) : (arrayBufferToHex iv).length = 24 := by
  rw [arrayBufferToHex_length iv hb, hlen]

theorem hexLen_salt {salt : List Nat} (hlen : salt.length = 16)
    (hb : ∀ b ∈ salt, b < 256) : (arrayBufferToHex salt).length = 32 := by
  rw [arrayBufferToHex_length salt hb, hlen]

/-! ## Claim theorems -/

/-- C1: For every plaintext string P and every 256-bit key K (as a hex
string), decrypting the envelope produced by encrypting P under K with the
same K returns P, given the AES-GCM contract at the values used: the
platform decryption inverts the platform encryption under the same key and
IV, and the ciphertext (like the IV drawn by the call) is a byte sequence. -/
theorem C1_keyed_roundtrip (C : CryptoProvider) (iv : List Nat)
    (text hexKey : List Char) (hivLen : iv.length = 12)
    (hivB : ∀ b ∈ iv, b < 256)
    (hctB : ∀ b ∈ C.enc (importKey hexKey) iv (strToUint8Array text), b < 256)
    (hgcm : C.dec (importKey hexKey) iv
        (C.enc (importKey hexKey) iv (strToUint8Array text)) =
      some (strToUint8Array text)) :
    decrypt C (encrypt C iv text hexKey) hexKey = Except.ok text := by
  have h24 := hexLen_iv hivLen hivB
  simp only [decrypt, encrypt, decodeKeyed]
  rw [List.take_left' h24, List.drop_left' h24, hex_roundtrip iv hivB,
    hex_roundtrip _ hctB, hgcm]
  simp [utf8_roundtrip]

/-- Witness for C1 at the toy provider, a concrete IV, plaintext "hi" and
the all-zero 64-hex-character key. -/
theorem C1_keyed_roundtrip_witness :
    decrypt toyProvider
      (encrypt toyProvider [0, 1, 2, 3, 4, 5, 6, 7, 8, 9, 10, 11] "hi".data
        (List.replicate 64 '0'))
      (List.replicate 64 '0') = Except.ok "hi".data :=
  C1_keyed_roundtrip toyProvider [0, 1, 2, 3, 4, 5, 6, 7, 8, 9, 10, 11]
    "hi".data (List.replicate 64 '0') (by decide) (by decide) (by decide)
    (by decide)

/-- C2: For every plaintext P and password W, decrypting with the password
the envelope produced by encrypting P under W returns P, given the AES-GCM
contract at the derived key; key derivation is deterministic — the same
(password, salt) pair yields the same key, which is why the decrypt side
reproduces the key from the envelope's salt — with PBKDF2-HMAC-SHA-256 at
100,000 iterations fixed by the code. -/
theorem C2_password_roundtrip (C : CryptoProvider) (salt iv : List Nat)
    (text password : List Char) (hsLen : salt.length = 16)
    (hsB : ∀ b ∈ salt, b < 256) (hivLen : iv.length = 12)
    (hivB : ∀ b ∈ iv, b < 256)
    (hctB : ∀ b ∈ C.enc (C.kdf (strToUint8Array password) salt) iv
        (strToUint8Array text), b < 256)
    (hgcm : C.dec (C.kdf (strToUint8Array password) salt) iv
        (C.enc (C.kdf (strToUint8Array password) salt) iv
          (strToUint8Array text)) = some (strToUint8Array text)) :
    decryptWithPassword C (encryptWithPassword C salt iv text password)
        password = Except.ok text ∧
      pbkdf2Iterations = 100000 ∧ pbkdf2Hash = "SHA-256".data := by
  refine ⟨?_, rfl, rfl⟩
  have h32 := hexLen_salt hsLen hsB
  have h24 := hexLen_iv hivLen hivB
  have h56 : (arrayBufferToHex salt ++ arrayBufferToHex iv).length = 56 := by
    rw [List.length_append, h32, h24]
  simp only [decryptWithPassword, encryptWithPassword, decodePassworded]
  rw [List.take_left' h32, List.drop_left' h32, List.take_left' h24,
    show arrayBufferToHex salt ++
        (arrayBufferToHex iv ++
          arrayBufferToHex (C.enc (C.kdf (strToUint8Array password) salt) iv
            (strToUint8Array text))) =
      (arrayBufferToHex salt ++ arrayBufferToHex iv) ++
        arrayBufferToHex (C.enc (C.kdf (strToUint8Array password) salt) iv
          (strToUint8Array text)) from (List.append_assoc _ _ _).symm,
    List.drop_left' h56, hex_roundtrip salt hsB, hex_roundtrip iv hivB,
    hex_roundtrip _ hctB, hgcm]
  simp [utf8_roundtrip]

/-- Witness for C2 at the toy provider with a concrete 16-byte salt,
12-byte IV, plaintext "hi" and password "pw". -/
theorem C2_password_roundtrip_witness :
    decryptWithPassword toyProvider
      (encryptWithPassword toyProvider
        [9, 9, 9, 9, 9, 9, 9, 9, 9, 9, 9, 9, 9, 9, 9, 9]
        [0, 1, 2, 3, 4, 5, 6, 7, 8, 9, 10, 11] "hi".data "pw".data)
      "pw".data = Except.ok "hi".data ∧
    pbkdf2Iterations = 100000 ∧ pbkdf2Hash = "SHA-256".data :=
  C2_password_roundtrip toyProvider
    [9, 9, 9, 9, 9, 9, 9, 9, 9, 9, 9, 9, 9, 9, 9, 9]
    [0, 1, 2, 3, 4, 5, 6, 7, 8, 9, 10, 11] "hi".data "pw".data (by decide)
    (by decide) (by decide) (by decide) (by decide) (by decide)

/-- C4: The keyed envelope is IV-hex followed by ciphertext-hex (tag
included), in that fixed order with no length fields, of hex length
24 + 2·len(ciphertext); the passworded envelope is salt-hex, IV-hex,
ciphertext-hex, of hex length 32 + 24 + 2·len(ciphertext). -/
theorem C4_envelope_shape (C : CryptoProvider) (salt iv ctK ctP : List Nat)
    (text hexKey password : List Char)
    (hK : ctK = C.enc (importKey hexKey) iv (strToUint8Array text))
    (hP : ctP = C.enc (C.kdf (strToUint8Array password) salt) iv
        (strToUint8Array text))
    (hivLen : iv.length = 12) (hivB : ∀ b ∈ iv, b < 256)
    (hsLen : salt.length = 16) (hsB : ∀ b ∈ salt, b < 256)
    (hKB : ∀ b ∈ ctK, b < 256) (hPB : ∀ b ∈ ctP, b < 256) :
    encrypt C iv text hexKey = arrayBufferToHex iv ++ arrayBufferToHex ctK ∧
    (encrypt C iv text hexKey).length = 24 + 2 * ctK.length ∧
    encryptWithPassword C salt iv text password =
      arrayBufferToHex salt ++ (arrayBufferToHex iv ++ arrayBufferToHex ctP) ∧
    (encryptWithPassword C salt iv text password).length =
      32 + (24 + 2 * ctP.length) := by
  subst hK hP
  refine ⟨rfl, ?_, rfl, ?_⟩
  · simp only [encrypt, List.length_append]
    rw [hexLen_iv hivLen hivB, arrayBufferToHex_length _ hKB]
  · simp only [encryptWithPassword, List.length_append]
    rw [hexLen_iv hivLen hivB, hexLen_salt hsLen hsB,
      arrayBufferToHex_length _ hPB]

/-- Witness for C4 at the toy provider with concrete salt, IV, key,
password and plaintext. -/
theorem C4_envelope_shape_witness :
    encrypt toyProvider [0, 1, 2, 3, 4, 5, 6, 7, 8, 9, 10, 11] "hi".data
        (List.replicate 64 '0') =
      arrayBufferToHex [0, 1, 2, 3, 4, 5, 6, 7, 8, 9, 10, 11] ++
        arrayBufferToHex
          (toyProvider.enc (importKey (List.replicate 64 '0'))
            [0, 1, 2, 3, 4, 5, 6, 7, 8, 9, 10, 11]
            (strToUint8Array "hi".data)) ∧
    (encrypt toyProvider [0, 1, 2, 3, 4, 5, 6, 7, 8, 9, 10, 11] "hi".data
        (List.replicate 64 '0')).length =
      24 + 2 * (toyProvider.enc (importKey (List.replicate 64 '0'))
        [0, 1, 2, 3, 4, 5, 6, 7, 8, 9, 10, 11]
        (strToUint8Array "hi".data)).length ∧
    encryptWithPassword toyProvider
        [9, 9, 9, 9, 9, 9, 9, 9, 9, 9, 9, 9, 9, 9, 9, 9]
        [0, 1, 2, 3, 4, 5, 6, 7, 8, 9, 10, 11] "hi".data "pw".data =
      arrayBufferToHex [9, 9, 9, 9, 9, 9, 9, 9, 9, 9, 9, 9, 9, 9, 9, 9] ++
        (arrayBufferToHex [0, 1, 2, 3, 4, 5, 6, 7, 8, 9, 10, 11] ++
          arrayBufferToHex
            (toyProvider.enc
              (toyProvider.kdf (strToUint8Array "pw".data)
                [9, 9, 9, 9, 9, 9, 9, 9, 9, 9, 9, 9, 9, 9, 9, 9])
              [0, 1, 2, 3, 4, 5, 6, 7, 8, 9, 10, 11]
              (strToUint8Array "hi".data))) ∧
    (encryptWithPassword toyProvider
        [9, 9, 9, 9, 9, 9, 9, 9, 9, 9, 9, 9, 9, 9, 9, 9]
        [0, 1, 2, 3, 4, 5, 6, 7, 8, 9, 10, 11] "hi".data "pw".data).length =
      32 + (24 + 2 * (toyProvider.enc
        (toyProvider.kdf (strToUint8Array "pw".data)
          [9, 9, 9, 9, 9, 9, 9, 9, 9, 9, 9, 9, 9, 9, 9, 9])
        [0, 1, 2, 3, 4, 5, 6, 7, 8, 9, 10, 11]
        (strToUint8Array "hi".data)).length) :=
  C4_envelope_shape toyProvider
    [9, 9, 9, 9, 9, 9, 9, 9, 9, 9, 9, 9, 9, 9, 9, 9]
    [0, 1, 2, 3, 4, 5, 6, 7, 8, 9, 10, 11] _ _ "hi".data
    (List.replicate 64 '0') "pw".data rfl rfl (by decide) (by decide)
    (by decide) (by decide) (by decide) (by decide)

/-- C5: Decrypting an envelope produced under one key with a different key
fails — given the AEAD tag-check failure the GCM contract guarantees for a
wrong key — with a DecryptionError carrying only the one generic message
(the code's 'Failed to decrypt: Invalid key or corrupted data'), which does
not distinguish a wrong key from corrupted ciphertext, and no plaintext is
returned. -/
theorem C5_wrong_key (C : CryptoProvider) (iv : List Nat)
    (text hexKey1 hexKey2 : List Char) (hne : hexKey1 ≠ hexKey2)
    (hivLen : iv.length = 12) (hivB : ∀ b ∈ iv, b < 256)
    (hctB : ∀ b ∈ C.enc (importKey hexKey1) iv (strToUint8Array text), b < 256)
    (htag : C.dec (importKey hexKey2) iv
        (C.enc (importKey hexKey1) iv (strToUint8Array text)) = none) :
    decrypt C (encrypt C iv text hexKey1) hexKey2 =
      Except.error decryptFailMsg := by
  have h24 := hexLen_iv hivLen hivB
  simp only [decrypt, encrypt, decodeKeyed]
  rw [List.take_left' h24, List.drop_left' h24, hex_roundtrip iv hivB,
    hex_roundtrip _ hctB, htag]

/-- Witness for C5 at the toy provider with the all-zero and the all-f
64-hex-character keys. -/
theorem C5_wrong_key_witness :
    decrypt toyProvider
      (encrypt toyProvider [0, 1, 2, 3, 4, 5, 6, 7, 8, 9, 10, 11] "hi".data
        (List.replicate 64 '0'))
      (List.replicate 64 'f') = Except.error decryptFailMsg :=
  C5_wrong_key toyProvider [0, 1, 2, 3, 4, 5, 6, 7, 8, 9, 10, 11] "hi".data
    (List.replicate 64 '0') (List.replicate 64 'f') (by decide) (by decide)
    (by decide) (by decide) (by decide)

/-- C7: Distinct random draws give distinct envelope fields: if two encrypt
calls under the same key are supplied distinct 12-byte IVs by the random
source, the first 24 hex characters of the two envelopes differ; if two
encryptWithPassword calls are supplied distinct 16-byte salts, the 32-hex
salt fields differ.  (Each call passes a fresh
`crypto.getRandomValues` output as its IV / salt.) -/
theorem C7_iv_salt_uniqueness (C : CryptoProvider) (iv1 iv2 salt1 salt2 : List Nat)
    (t1 t2 p1 p2 key : List Char)
    (hiv1 : iv1.length = 12) (hiv2 : iv2.length = 12)
    (hb1 : ∀ b ∈ iv1, b < 256) (hb2 : ∀ b ∈ iv2, b < 256)
    (hivne : iv1 ≠ iv2)
    (hs1 : salt1.length = 16) (hs2 : salt2.length = 16)
    (hsb1 : ∀ b ∈ salt1, b < 256) (hsb2 : ∀ b ∈ salt2, b < 256)
    (hsne : salt1 ≠ salt2) :
    (encrypt C iv1 t1 key).take 24 ≠ (encrypt C iv2 t2 key).take 24 ∧
    (encryptWithPassword C salt1 iv1 t1 p1).take 32 ≠
      (encryptWithPassword C salt2 iv2 t2 p2).take 32 := by
  constructor
  · simp only [encrypt]
    rw [List.take_left' (hexLen_iv hiv1 hb1),
      List.take_left' (hexLen_iv hiv2 hb2)]
    intro h
    exact hivne (arrayBufferToHex_inj hb1 hb2 h)
  · simp only [encryptWithPassword]
    rw [List.take_left' (hexLen_salt hs1 hsb1),
      List.take_left' (hexLen_salt hs2 hsb2)]
    intro h
    exact hsne (arrayBufferToHex_inj hsb1 hsb2 h)

/-- Witness for C7 with two concrete distinct IVs and salts. -/
theorem C7_iv_salt_uniqueness_witness :
    (encrypt toyProvider [0, 1, 2, 3, 4, 5, 6, 7, 8, 9, 10, 11] "hi".data
        (List.replicate 64 '0')).take 24 ≠
      (encrypt toyProvider [11, 10, 9, 8, 7, 6, 5, 4, 3, 2, 1, 0] "yo".data
        (List.replicate 64 '0')).take 24 ∧
    (encryptWithPassword toyProvider
        [9, 9, 9, 9, 9, 9, 9, 9, 9, 9, 9, 9, 9, 9, 9, 9]
        [0, 1, 2, 3, 4, 5, 6, 7, 8, 9, 10, 11] "hi".data "pw".data).take 32 ≠
      (encryptWithPassword toyProvider
        [8, 9, 9, 9, 9, 9, 9, 9, 9, 9, 9, 9, 9, 9, 9, 9]
        [11, 10, 9, 8, 7, 6, 5, 4, 3, 2, 1, 0] "yo".data "pw".data).take 32 :=
  C7_iv_salt_uniqueness toyProvider
    [0, 1, 2, 3, 4, 5, 6, 7, 8, 9, 10, 11] [11, 10, 9, 8, 7, 6, 5, 4, 3, 2, 1, 0]
    [9, 9, 9, 9, 9, 9, 9, 9, 9, 9, 9, 9, 9, 9, 9, 9]
    [8, 9, 9, 9, 9, 9, 9, 9, 9, 9, 9, 9, 9, 9, 9, 9]
    "hi".data "yo".data "pw".data "pw".data (List.replicate 64 '0')
    (by decide) (by decide) (by decide) (by decide) (by decide) (by decide)
    (by decide) (by decide) (by decide) (by decide)

/-- C8: The internal hex codec round-trips on every byte sequence:
hexToArrayBuffer (arrayBufferToHex b) = b, so the hex encoding of salt, IV
and ciphertext loses no information in the envelope. -/
theorem C8_hex_roundtrip (l : List Nat) (h : ∀ b ∈ l, b < 256) :
    hexToArrayBuffer (arrayBufferToHex l) = l :=
  hex_roundtrip l h

/-- Witness for C8 at a concrete byte list exercising one-digit padding,
a two-digit byte and the extremes. -/
theorem C8_hex_roundtrip_witness :
    hexToArrayBuffer (arrayBufferToHex [0, 7, 16, 171, 255]) =
      [0, 7, 16, 171, 255] :=
  C8_hex_roundtrip [0, 7, 16, 171, 255] (by decide)

/-- C3 counterexample: the claim says decoding "" and "abc" fails with
MalformedEnvelopeError.  The spec-side decode indeed fails there, but the
code's decode step is total — it returns plain byte pairs with no
validation — and the failure the code eventually produces on these inputs
is the single generic decryption error, not a malformed-envelope error;
no MalformedEnvelopeError exists anywhere in the code. -/
theorem C3_counterexample :
    decodeKeyedSpec "".data = Except.error "MalformedEnvelopeError".data ∧
    decodeKeyedSpec "abc".data = Except.error "MalformedEnvelopeError".data ∧
    decodeKeyed "".data = ([], []) ∧
    decodeKeyed "abc".data = ([171, 12], []) ∧
    decrypt toyProvider "".data (List.replicate 64 '0') =
      Except.error decryptFailMsg ∧
    decrypt toyProvider "abc".data (List.replicate 64 '0') =
      Except.error decryptFailMsg :=
  ⟨rfl, rfl, rfl, rfl, rfl, rfl⟩

/-- C3 (amended): the keyed decode step performs no validation and cannot
fail; on "" it yields the empty IV and ciphertext, on "abc" the IV bytes
[0xAB, 0x0C] and empty ciphertext, and the subsequent platform decryption
(which rejects these malformed parameters) is surfaced as the one generic
DecryptionError message — not as a MalformedEnvelopeError, which the code
does not have. -/
theorem C3_decode_no_validation (C : CryptoProvider) (k : List Char)
    (h1 : C.dec (importKey k) [] [] = none)
    (h2 : C.dec (importKey k) [171, 12] [] = none) :
    decodeKeyed "".data = ([], []) ∧
    decodeKeyed "abc".data = ([171, 12], []) ∧
    decrypt C "".data k = Except.error decryptFailMsg ∧
    decrypt C "abc".data k = Except.error decryptFailMsg := by
  refine ⟨rfl, rfl, ?_, ?_⟩
  · have hd : decrypt C "".data k =
        match C.dec (importKey k) [] [] with
        | some decrypted => Except.ok (uint8ArrayToStr decrypted)
        | none => Except.error decryptFailMsg := rfl
    rw [hd, h1]
  · have hd : decrypt C "abc".data k =
        match C.dec (importKey k) [171, 12] [] with
        | some decrypted => Except.ok (uint8ArrayToStr decrypted)
        | none => Except.error decryptFailMsg := rfl
    rw [hd, h2]

/-- Witness for the amended C3 at the toy provider. -/
theorem C3_decode_no_validation_witness :
    decodeKeyed "".data = ([], []) ∧
    decodeKeyed "abc".data = ([171, 12], []) ∧
    decrypt toyProvider "".data (List.replicate 64 '0') =
      Except.error decryptFailMsg ∧
    decrypt toyProvider "abc".data (List.replicate 64 '0') =
      Except.error decryptFailMsg :=
  C3_decode_no_validation toyProvider (List.replicate 64 '0') (by decide)
    (by decide)

/-- C6: Once a stored record's expiresAt is earlier than the current time,
fetchPaste returns null even though the record was still physically
present, exactly as it does for an absent (purged) record — so callers
cannot distinguish a lazily expired record from a purged one. -/
theorem C6_lazy_expiry (p : PasteData) (now : Int) (h : p.expiresAt < now) :
    fetchPaste (some p) now = none ∧ fetchPaste none now = none := by
  refine ⟨?_, rfl⟩
  simp only [fetchPaste]
  by_cases hp : p.hasPassword = none <;> simp [hp, h]

/-- Witness for C6 at a concrete expired record. -/
theorem C6_lazy_expiry_witness :
    fetchPaste (some { ciphertext := "ct".data, expiresAt := 5, hasPassword := some true }) 10 = none ∧
    fetchPaste none 10 = none :=
  C6_lazy_expiry { ciphertext := "ct".data, expiresAt := 5, hasPassword := some true } 10 (by decide)

/-- C9: A stored record lacking the hasPassword field is returned by
fetchPaste with hasPassword set to false, and no record ever leaves
fetchPaste with the field undefined. -/
theorem C9_hasPassword_default (p : PasteData) (now : Int)
    (hmiss : p.hasPassword = none) (hlive : ¬ p.expiresAt < now) :
    fetchPaste (some p) now =
      some { ciphertext := p.ciphertext, expiresAt := p.expiresAt,
             hasPassword := some false } ∧
    ∀ s : Option PasteData, ∀ q : PasteData,
      fetchPaste s now = some q → q.hasPassword ≠ none := by
  constructor
  · simp only [fetchPaste]
    simp [hmiss, hlive]
  · intro s q hq
    match s with
    | none => simp [fetchPaste] at hq
    | some r =>
      simp only [fetchPaste] at hq
      by_cases hp : r.hasPassword = none
      · rw [if_pos hp] at hq
        rcases Classical.em (r.expiresAt < now) with hlt | hlt
        · rw [if_pos hlt] at hq
          exact absurd hq (by simp)
        · rw [if_neg hlt] at hq
          injection hq with hq
          rw [← hq]
          simp
      · rw [if_neg hp] at hq
        rcases Classical.em (r.expiresAt < now) with hlt | hlt
        · rw [if_pos hlt] at hq
          exact absurd hq (by simp)
        · rw [if_neg hlt] at hq
          injection hq with hq
          rw [← hq]
          exact hp

/-- Witness for C9 at a concrete live record lacking the field. -/
theorem C9_hasPassword_default_witness :
    fetchPaste (some { ciphertext := "ct".data, expiresAt := 50, hasPassword := none }) 10 =
      some { ciphertext := "ct".data, expiresAt := 50, hasPassword := some false } ∧
    ∀ s : Option PasteData, ∀ q : PasteData,
      fetchPaste s 10 = some q → q.hasPassword ≠ none :=
  C9_hasPassword_default { ciphertext := "ct".data, expiresAt := 50, hasPassword := none } 10 (by decide) (by decide)

/-- C10: A ttl not ending in 'h', 'd' or 'm' makes createPaste store an
expiresAt exactly 24 hours after the current time, regardless of the
parsed value; a ttl ending in 'h', 'd' or 'm' whose parseInt value is v
stores the current time plus v hours, days or minutes respectively. -/
theorem C10_ttl (ciphertext ttl : List Char) (hp : Bool) (now : Int) :
    ((ttl.getLast? ≠ some 'h' ∧ ttl.getLast? ≠ some 'd' ∧
        ttl.getLast? ≠ some 'm') →
      createPaste ciphertext ttl hp now =
        some { ciphertext := ciphertext, expiresAt := now + 24 * msPerHour,
               hasPassword := some hp }) ∧
    ∀ v : Int, jsParseIntDec ttl = some v →
      ((ttl.getLast? = some 'h' →
        createPaste ciphertext ttl hp now =
          some { ciphertext := ciphertext, expiresAt := now + v * msPerHour,
                 hasPassword := some hp }) ∧
       (ttl.getLast? = some 'd' →
        createPaste ciphertext ttl hp now =
          some { ciphertext := ciphertext, expiresAt := now + v * msPerDay,
                 hasPassword := some hp }) ∧
       (ttl.getLast? = some 'm' →
        createPaste ciphertext ttl hp now =
          some { ciphertext := ciphertext, expiresAt := now + v * msPerMinute,
                 hasPassword := some hp })) := by
  constructor
  · rintro ⟨h1, h2, h3⟩
    simp [createPaste, ttlToExpiresAt, h1, h2, h3]
  · intro v hv
    refine ⟨?_, ?_, ?_⟩ <;> intro h <;>
      simp [createPaste, ttlToExpiresAt, h, hv]

/-- Witness for C10 at the ttl "24h". -/
theorem C10_ttl_witness :
    jsParseIntDec "24h".data = some 24 ∧
    createPaste "x".data "24h".data false 0 =
      some { ciphertext := "x".data, expiresAt := 0 + 24 * msPerHour,
             hasPassword := some false } :=
  ⟨by decide,
    ((C10_ttl "x".data "24h".data false 0).2 24 (by decide)).1 (by decide)⟩
